import Mathlib

/-!
Verification of the retention / spaced-repetition engine of the Matheman backend
(`RetentionAlgorithm` service, exposed through `server.js`).

Modelling conventions:
* JavaScript numbers are modelled as real numbers (`ℝ`).
* `Date` values are modelled as real millisecond timestamps; the source divides
  millisecond differences by `1000 * 60 * 60 * 24` to obtain day counts, and so do we.
* `Math.round` is Mathlib's `round` (both round halves up), `Math.max`/`Math.min`
  are `max`/`min`, `Math.log` is `Real.log`, `Math.exp` is `Real.exp`.
* The ECMAScript `Array.prototype.sort` is stable and is driven here by a
  comparator derived from a total preorder, so its result coincides with
  `List.insertionSort`, which is also stable.
-/

namespace RetentionAlgorithm

/-- Milliseconds per day, the divisor `1000 * 60 * 60 * 24` used by the source
for all date arithmetic. -/
def msPerDay : ℝ := 1000 * 60 * 60 * 24

/-- Retention after `t` days at learning strength `S`:
`if (S <= 0) return 0; retention = Math.exp(-t / S) * 100;
return Math.max(0, Math.min(100, retention));` -/
noncomputable def calculateRetention (t S : ℝ) : ℝ :=
  if S ≤ 0 then 0 else max 0 (min 100 (Real.exp (-t / S) * 100))

/-- Learning strength from two retention readings:
`timeDiff = t - t0; if (timeDiff <= 0 || R <= 0 || R0 <= 0) return 5;
 retentionRatio = R0 / R; if (retentionRatio <= 0) return 5;
 S = timeDiff / Math.log(retentionRatio); return Math.max(1, Math.min(60, S));`
When `Math.log(retentionRatio)` is `0` (that is, `R0 = R`), the source divides a
positive `timeDiff` by `+0`, giving `+Infinity`, and `Math.min(60, Infinity)` is
`60`; we make that IEEE behaviour an explicit branch. -/
noncomputable def calculateLearningStrength (t t0 R0 R : ℝ) : ℝ :=
  if t - t0 ≤ 0 ∨ R ≤ 0 ∨ R0 ≤ 0 then 5
  else if R0 / R ≤ 0 then 5
  else if Real.log (R0 / R) = 0 then 60
  else max 1 (min 60 ((t - t0) / Real.log (R0 / R)))

/-- Score-to-retention step mapping:
`if (score >= 90) return 95; if (score >= 80) return 85; if (score >= 70) return 75;
 if (score >= 60) return 60; if (score >= 50) return 45;
 return Math.max(20, score * 0.4);` -/
noncomputable def scoreToRetention (score : ℝ) : ℝ :=
  if 90 ≤ score then 95
  else if 80 ≤ score then 85
  else if 70 ≤ score then 75
  else if 60 ≤ score then 60
  else if 50 ≤ score then 45
  else max 20 (score * 0.4)

/-- Days until the next review, solving `threshold = e^(-t/S) * 100`:
`const r = retentionThreshold / 100; if (r <= 0) return 1;
 return Math.max(1, Math.round(-S * Math.log(r)));`
The source defaults `retentionThreshold` to `40`; callers here pass it explicitly. -/
noncomputable def calculateNextReviewDays (S retentionThreshold : ℝ) : ℤ :=
  if retentionThreshold / 100 ≤ 0 then 1
  else max 1 (round (-S * Real.log (retentionThreshold / 100)))

/-- Next review date: the last review date plus `calculateNextReviewDays S 40` days
(the source adds the day count with `Date.setDate`; we add it in milliseconds). -/
noncomputable def calculateNextReviewDate (S lastReviewDate : ℝ) : ℝ :=
  lastReviewDate + (calculateNextReviewDays S 40 : ℝ) * msPerDay

/-- One stored attempt: timestamp (ms), score, and optionally a learning strength. -/
structure Attempt where
  date : ℝ
  score : ℝ
  S : Option ℝ

/-- The JavaScript idiom `x.S || 5`: a missing strength, and also a strength of
`0` (falsy), fall back to the default `5`. -/
noncomputable def sOrDefault : Option ℝ → ℝ
  | none => 5
  | some s => if s = 0 then 5 else s

/-- Result record of `updateLearningStrength`; the first-attempt branch of the
source returns only `S`, `retention`, `firstAttempt`, the other branch returns
`S`, `retention`, `timeSinceLastReview`, `previousRetention`. -/
structure StrengthUpdate where
  S : ℝ
  retention : ℝ
  firstAttempt : Bool
  timeSinceLastReview : Option ℝ
  previousRetention : Option ℝ

/-- Update of learning strength from a new attempt.  With no prior history the
source returns `{S: 5, retention: scoreToRetention(score), firstAttempt: true}`;
otherwise it measures the day gap to the last attempt and re-estimates `S`. -/
noncomputable def updateLearningStrength (now : ℝ) (attemptHistory : List Attempt)
    (currentScore : ℝ) : StrengthUpdate :=
  match attemptHistory.getLast? with
  | none =>
      { S := 5, retention := scoreToRetention currentScore, firstAttempt := true,
        timeSinceLastReview := none, previousRetention := none }
  | some lastAttempt =>
      let timeDiff := (now - lastAttempt.date) / msPerDay
      let previousRetention := scoreToRetention lastAttempt.score
      let currentRetention := scoreToRetention currentScore
      { S := calculateLearningStrength timeDiff 0 previousRetention currentRetention,
        retention := currentRetention, firstAttempt := false,
        timeSinceLastReview := some timeDiff, previousRetention := some previousRetention }

/-- Recommendation priority, `high`, `medium` or `low` in the source. -/
inductive Priority where
  | high
  | medium
  | low
deriving DecidableEq

/-- The comparator table `{ high: 0, medium: 1, low: 2 }` of the recommendation sort. -/
def priorityOrder : Priority → ℕ
  | .high => 0
  | .medium => 1
  | .low => 2

/-- The last attempt stored on a quiz: timestamp, scheduled next review
timestamp, score, and optionally a learning strength `S`. -/
structure LastAttempt where
  date : ℝ
  nextReviewDate : ℝ
  score : ℝ
  S : Option ℝ

/-- A quiz as consumed by `getQuizRecommendations`: some identifier plus an
optional last attempt (absent for a never-attempted quiz). -/
structure Quiz where
  id : ℕ
  lastAttempt : Option LastAttempt

/-- Element of the array returned by `getQuizRecommendations`: the spread
`...quiz` keeps the original quiz, and the computed fields are added.  The
never-attempted branch adds no `retention` field, hence `Option ℝ`. -/
structure RecResult where
  quiz : Quiz
  priority : Priority
  reason : String
  daysUntilDue : ℝ
  isDue : Bool
  retention : Option ℝ

/-- The per-quiz body of the `map` inside `getQuizRecommendations`. -/
noncomputable def recommendQuiz (now : ℝ) (quiz : Quiz) : RecResult :=
  match quiz.lastAttempt with
  | none =>
      { quiz := quiz, priority := .high, reason := "New quiz - never attempted",
        daysUntilDue := 0, isDue := true, retention := none }
  | some lastAttempt =>
      let daysSinceReview := (now - lastAttempt.date) / msPerDay
      let daysUntilDue := (lastAttempt.nextReviewDate - now) / msPerDay
      let isDue : Bool := if daysUntilDue ≤ 0 then true else false
      let overdueDays : ℤ := round |daysUntilDue|
      let pr : Priority × String :=
        if daysUntilDue ≤ 0 then (.high, s!"Overdue by {overdueDays} days")
        else if daysUntilDue ≤ 1 then (.medium, "Due soon")
        else if lastAttempt.score < 70 then (.high, "Low score - needs reinforcement")
        else (.low, "Review upcoming")
      { quiz := quiz, priority := pr.1, reason := pr.2,
        daysUntilDue := max 0 daysUntilDue, isDue := isDue,
        retention := some (calculateRetention daysSinceReview (sOrDefault lastAttempt.S)) }

/-- The total preorder realised by the sort comparator
`(priorityOrder[a.priority] - priorityOrder[b.priority]) || (a.daysUntilDue - b.daysUntilDue)`:
`a` may be placed no later than `b` iff the comparator is `≤ 0`. -/
def recLE (a b : RecResult) : Prop :=
  priorityOrder a.priority < priorityOrder b.priority
  ∨ (priorityOrder a.priority = priorityOrder b.priority ∧ a.daysUntilDue ≤ b.daysUntilDue)

noncomputable instance : DecidableRel recLE := fun a b => by unfold recLE; infer_instance

instance : IsTotal RecResult recLE where
  total a b := by
    unfold recLE
    rcases Nat.lt_trichotomy (priorityOrder a.priority) (priorityOrder b.priority) with h | h | h
    · exact Or.inl (Or.inl h)
    · rcases le_total a.daysUntilDue b.daysUntilDue with hd | hd
      · exact Or.inl (Or.inr ⟨h, hd⟩)
      · exact Or.inr (Or.inr ⟨h.symm, hd⟩)
    · exact Or.inr (Or.inl h)

instance : IsTrans RecResult recLE where
  trans a b c hab hbc := by
    unfold recLE at *
    rcases hab with hab | ⟨hab, hab'⟩ <;> rcases hbc with hbc | ⟨hbc, hbc'⟩
    · exact Or.inl (hab.trans hbc)
    · exact Or.inl (hbc ▸ hab)
    · exact Or.inl (hab ▸ hbc)
    · exact Or.inr ⟨hab.trans hbc, hab'.trans hbc'⟩

/-- The sort key underlying `recLE`. -/
def sortKey (r : RecResult) : ℕ × ℝ := (priorityOrder r.priority, r.daysUntilDue)

/-- `getQuizRecommendations`: map each quiz to its recommendation record, then
sort with the stable comparator sort (modelled by `List.insertionSort`). -/
noncomputable def getQuizRecommendations (now : ℝ) (quizzes : List Quiz) : List RecResult :=
  List.insertionSort recLE (quizzes.map (recommendQuiz now))

/-- Statistics record returned by `calculateLessonStats`; the empty-history
branch returns no `nextReviewDate`, hence `Option ℝ`. -/
structure LessonStats where
  averageScore : ℤ
  attemptCount : ℕ
  averageLearningStrength : ℝ
  currentRetention : ℤ
  trend : String
  nextReviewDate : Option ℝ

/-- `calculateLessonStats` on a lesson, taking its `quizAttempts` array.  With
no attempts the source returns the fixed default record; otherwise it averages
scores, derives the trend from the last three scores against the rest, reads
the strength of the last attempt (`lastAttempt.S || 5`), and evaluates the
current retention at the time elapsed since the last attempt. -/
noncomputable def calculateLessonStats (now : ℝ) (quizAttempts : List Attempt) : LessonStats :=
  match quizAttempts with
  | [] =>
      { averageScore := 0, attemptCount := 0, averageLearningStrength := 5,
        currentRetention := 0, trend := "neutral", nextReviewDate := none }
  | a :: rest =>
      let attempts := a :: rest
      let scores := attempts.map (fun x => x.score)
      let n := scores.length
      let averageScore := scores.sum / (n : ℝ)
      let recentAvg := (scores.drop (n - 3)).sum / ((min 3 n : ℕ) : ℝ)
      let olderAvg := (scores.take (n - 3)).sum / ((max 1 (n - 3) : ℕ) : ℝ)
      let trend : String :=
        if 2 ≤ n then
          if olderAvg + 5 < recentAvg then "improving"
          else if recentAvg < olderAvg - 5 then "declining"
          else "neutral"
        else "neutral"
      let lastAttempt := attempts.getLast (List.cons_ne_nil a rest)
      let averageLearningStrength := sOrDefault lastAttempt.S
      let daysSinceReview := (now - lastAttempt.date) / msPerDay
      let currentRetention := calculateRetention daysSinceReview averageLearningStrength
      { averageScore := round averageScore, attemptCount := n,
        averageLearningStrength := (round (averageLearningStrength * 10) : ℝ) / 10,
        currentRetention := round currentRetention, trend := trend,
        nextReviewDate := some (calculateNextReviewDate averageLearningStrength lastAttempt.date) }

/-- Concrete timestamp used in the examples below: day 20 in milliseconds. -/
def exNow : ℝ := 20 * msPerDay

/-- Last attempt one day overdue at `exNow` (next review was scheduled for day 19). -/
def exLastA : LastAttempt := { date := 10 * msPerDay, nextReviewDate := 19 * msPerDay, score := 90, S := some 5 }

/-- Last attempt three days overdue at `exNow` (next review was scheduled for day 17). -/
def exLastB : LastAttempt := { date := 10 * msPerDay, nextReviewDate := 17 * msPerDay, score := 90, S := some 5 }

/-- Last attempt not yet due at `exNow` (next review scheduled for day 25). -/
def exLastC : LastAttempt := { date := 10 * msPerDay, nextReviewDate := 25 * msPerDay, score := 90, S := some 5 }

/-- Overdue quiz (by one day). -/
def exQuizA : Quiz := { id := 0, lastAttempt := some exLastA }

/-- More overdue quiz (by three days). -/
def exQuizB : Quiz := { id := 1, lastAttempt := some exLastB }

/-- Attempted quiz that is not due. -/
def exQuizC : Quiz := { id := 5, lastAttempt := some exLastC }

/-- Never-attempted quiz. -/
def exQuizNew : Quiz := { id := 4, lastAttempt := none }

/-! Helper lemmas. -/

/-- Lower numeric bound for the logarithm governing the 40 percent threshold. -/
theorem log_five_div_two_lower : (0.9 : ℝ) ≤ Real.log (5 / 2) := by
  rw [Real.le_log_iff_exp_le (by norm_num : (0 : ℝ) < 5 / 2)]
  have e1 : Real.exp 0.9 ^ (10 : ℕ) = Real.exp 1 ^ (9 : ℕ) := by
    rw [← Real.exp_nat_mul, ← Real.exp_nat_mul]
    norm_num
  have hpow : Real.exp 0.9 ^ (10 : ℕ) ≤ (5 / 2 : ℝ) ^ (10 : ℕ) := by
    rw [e1]
    calc Real.exp 1 ^ (9 : ℕ) ≤ (2.7182818286 : ℝ) ^ (9 : ℕ) :=
          pow_le_pow_left₀ (Real.exp_pos 1).le Real.exp_one_lt_d9.le 9
    _ ≤ (5 / 2 : ℝ) ^ (10 : ℕ) := by norm_num
  exact le_of_pow_le_pow_left₀ (by norm_num) (by norm_num) hpow

/-- Upper numeric bound for the logarithm governing the 40 percent threshold. -/
theorem log_five_div_two_upper : Real.log (5 / 2) < (1.1 : ℝ) := by
  rw [Real.log_lt_iff_lt_exp (by norm_num : (0 : ℝ) < 5 / 2)]
  have e1 : Real.exp 1.1 ^ (10 : ℕ) = Real.exp 1 ^ (11 : ℕ) := by
    rw [← Real.exp_nat_mul, ← Real.exp_nat_mul]
    norm_num
  have hpow : (5 / 2 : ℝ) ^ (10 : ℕ) < Real.exp 1.1 ^ (10 : ℕ) := by
    rw [e1]
    calc (5 / 2 : ℝ) ^ (10 : ℕ) < (2.7182818283 : ℝ) ^ (11 : ℕ) := by norm_num
    _ < Real.exp 1 ^ (11 : ℕ) := pow_lt_pow_left₀ Real.exp_one_gt_d9 (by norm_num) (by norm_num)
  exact lt_of_pow_lt_pow_left₀ 10 (Real.exp_pos 1.1).le hpow

/-- The logarithm of `40 / 100` is the negated logarithm of `5 / 2`. -/
theorem log_forty_over_hundred : Real.log ((40 : ℝ) / 100) = -Real.log (5 / 2) := by
  rw [show ((40 : ℝ) / 100) = ((5 : ℝ) / 2)⁻¹ by norm_num, Real.log_inv]

/-- Retention values are always nonnegative. -/
theorem calculateRetention_nonneg (t S : ℝ) : 0 ≤ calculateRetention t S := by
  unfold calculateRetention
  split
  · exact le_refl 0
  · exact le_max_left 0 _

/-- Filtering through an ordered insertion: the inserted element lands in front
of the kept elements whenever the predicate only keeps elements the inserted
one may precede. -/
theorem filter_orderedInsert {α : Type} (r : α → α → Prop) [DecidableRel r] (p : α → Bool)
    (a : α) (s : List α) (h : p a = true → ∀ b ∈ s, p b = true → r a b) :
    (s.orderedInsert r a).filter p = if p a then a :: s.filter p else s.filter p := by
  induction s with
  | nil => simp [List.orderedInsert, List.filter_cons]
  | cons b t ih =>
    by_cases hr : r a b
    · rw [List.orderedInsert, if_pos hr]
      simp [List.filter_cons]
    · rw [List.orderedInsert, if_neg hr]
      have ih' := ih (fun hpa b' hb' hpb' => h hpa b' (List.mem_cons_of_mem b hb') hpb')
      simp only [List.filter_cons]
      rw [ih']
      by_cases hpa : p a = true
      · have hpb : p b = false := by
          by_contra hpb
          exact hr (h hpa b (List.mem_cons_self b t) (by simpa using hpb))
        simp [hpa, hpb]
      · have hpa' : p a = false := by simpa using hpa
        by_cases hpb : p b = true <;> simp [hpa', hpb]

/-- Stability of insertion sort, phrased through filters: the subsequence of
elements kept by a predicate on which the relation is reflexive-and-total is
untouched by sorting. -/
theorem filter_insertionSort {α : Type} (r : α → α → Prop) [DecidableRel r] (p : α → Bool)
    (hp : ∀ a b, p a = true → p b = true → r a b) (l : List α) :
    (List.insertionSort r l).filter p = l.filter p := by
  induction l with
  | nil => rfl
  | cons a t ih =>
    rw [List.insertionSort, filter_orderedInsert r p a _ (fun hpa b _ hpb => hp a b hpa hpb),
      ih, List.filter_cons]

/-- The spread `...quiz` keeps the original quiz on every recommendation record. -/
theorem recommendQuiz_quiz (now : ℝ) (q : Quiz) : (recommendQuiz now q).quiz = q := by
  rcases q with ⟨i, la⟩
  cases la <;> rfl

/-- Field values of the never-attempted branch of `recommendQuiz`. -/
theorem recommendQuiz_of_none (now : ℝ) (q : Quiz) (h : q.lastAttempt = none) :
    recommendQuiz now q =
      { quiz := q, priority := .high, reason := "New quiz - never attempted",
        daysUntilDue := 0, isDue := true, retention := none } := by
  rcases q with ⟨i, la⟩
  cases la
  · rfl
  · simp at h

/-- Every recommendation record carries a nonnegative `daysUntilDue`. -/
theorem recommendQuiz_daysUntilDue_nonneg (now : ℝ) (q : Quiz) :
    0 ≤ (recommendQuiz now q).daysUntilDue := by
  rcases q with ⟨i, la⟩
  cases la
  · simp [recommendQuiz]
  · exact le_max_left 0 _

/-- A due recommendation record has `daysUntilDue = 0`. -/
theorem recommendQuiz_isDue_daysUntilDue (now : ℝ) (q : Quiz)
    (h : (recommendQuiz now q).isDue = true) : (recommendQuiz now q).daysUntilDue = 0 := by
  rcases q with ⟨i, la⟩
  cases la with
  | none => rfl
  | some a =>
    have hdue : (recommendQuiz now ⟨i, some a⟩).isDue =
        (if (a.nextReviewDate - now) / msPerDay ≤ 0 then true else false) := rfl
    have hday : (recommendQuiz now ⟨i, some a⟩).daysUntilDue =
        max 0 ((a.nextReviewDate - now) / msPerDay) := rfl
    have hd : (a.nextReviewDate - now) / msPerDay ≤ 0 := by
      by_contra hd
      rw [hdue, if_neg hd] at h
      exact Bool.false_ne_true h
    rw [hday]
    exact max_eq_left hd

/-- A not-due recommendation record has a positive `daysUntilDue`. -/
theorem recommendQuiz_not_isDue_daysUntilDue (now : ℝ) (q : Quiz)
    (h : (recommendQuiz now q).isDue = false) : 0 < (recommendQuiz now q).daysUntilDue := by
  rcases q with ⟨i, la⟩
  cases la with
  | none => exact Bool.noConfusion h
  | some a =>
    have hdue : (recommendQuiz now ⟨i, some a⟩).isDue =
        (if (a.nextReviewDate - now) / msPerDay ≤ 0 then true else false) := rfl
    have hday : (recommendQuiz now ⟨i, some a⟩).daysUntilDue =
        max 0 ((a.nextReviewDate - now) / msPerDay) := rfl
    by_cases hd : (a.nextReviewDate - now) / msPerDay ≤ 0
    · rw [hdue, if_pos hd] at h
      exact Bool.noConfusion h
    · push_neg at hd
      rw [hday]
      exact lt_max_of_lt_right hd

/-- `daysUntilDue` on an attempted quiz is the clamped raw day difference. -/
theorem recommendQuiz_daysUntilDue_of_some (now : ℝ) (q : Quiz) (la : LastAttempt)
    (h : q.lastAttempt = some la) :
    (recommendQuiz now q).daysUntilDue = max 0 ((la.nextReviewDate - now) / msPerDay) := by
  rcases q with ⟨i, la'⟩
  cases la' with
  | none => simp at h
  | some a =>
    simp only [Option.some.injEq] at h
    subst h
    rfl

/-- Membership in the recommendation output comes from some input quiz. -/
theorem mem_getQuizRecommendations {now : ℝ} {qs : List Quiz} {r : RecResult}
    (h : r ∈ getQuizRecommendations now qs) : ∃ q ∈ qs, recommendQuiz now q = r := by
  rw [getQuizRecommendations, List.mem_insertionSort, List.mem_map] at h
  exact h

/-- The recommendation output has one entry per input quiz. -/
theorem length_getQuizRecommendations (now : ℝ) (qs : List Quiz) :
    (getQuizRecommendations now qs).length = qs.length := by
  rw [getQuizRecommendations, (List.perm_insertionSort recLE _).length_eq, List.length_map]

/-! Claim theorems. -/

/-- C4: for `S ≤ 0` the retention is `0`; for `S > 0` it is `100 * e^(-t/S)`
clamped to `[0, 100]`, hence `100` at `t = 0`; it is monotonically decreasing in
`t` for fixed `S > 0` and monotonically increasing in `S` for fixed `t > 0`. -/
theorem calculateRetention_spec (t t2 S S2 : ℝ) :
    (S ≤ 0 → calculateRetention t S = 0)
    ∧ (0 < S → calculateRetention t S = max 0 (min 100 (100 * Real.exp (-t / S))))
    ∧ (0 < S → calculateRetention 0 S = 100)
    ∧ (0 < S → t ≤ t2 → calculateRetention t2 S ≤ calculateRetention t S)
    ∧ (0 < t → S ≤ S2 → calculateRetention t S ≤ calculateRetention t S2) := by
  refine ⟨fun hS => ?_, fun hS => ?_, fun hS => ?_, fun hS ht => ?_, fun ht hS => ?_⟩
  · rw [calculateRetention, if_pos hS]
  · rw [calculateRetention, if_neg (not_le.mpr hS), mul_comm]
  · rw [calculateRetention, if_neg (not_le.mpr hS)]
    simp [Real.exp_zero]
  · rw [calculateRetention, if_neg (not_le.mpr hS), calculateRetention, if_neg (not_le.mpr hS)]
    have hmono : -t2 / S ≤ -t / S := by
      rw [div_eq_mul_inv, div_eq_mul_inv]
      exact mul_le_mul_of_nonneg_right (neg_le_neg ht) (inv_nonneg.mpr hS.le)
    exact max_le_max le_rfl (min_le_min le_rfl
      (mul_le_mul_of_nonneg_right (Real.exp_le_exp.mpr hmono) (by norm_num)))
  · rcases le_or_lt S 0 with hS0 | hS0
    · rw [calculateRetention, if_pos hS0]
      exact calculateRetention_nonneg t S2
    · have hS2 : 0 < S2 := lt_of_lt_of_le hS0 hS
      rw [calculateRetention, if_neg (not_le.mpr hS0), calculateRetention,
        if_neg (not_le.mpr hS2)]
      have hmono : -t / S ≤ -t / S2 := by
        rw [neg_div, neg_div, neg_le_neg_iff, div_le_div_iff₀ hS2 hS0]
        nlinarith
      exact max_le_max le_rfl (min_le_min le_rfl
        (mul_le_mul_of_nonneg_right (Real.exp_le_exp.mpr hmono) (by norm_num)))

/-- Witness for C4 at concrete inputs. -/
theorem calculateRetention_spec_witness :
    calculateRetention 3 (-2) = 0
    ∧ calculateRetention 1 5 = max 0 (min 100 (100 * Real.exp (-1 / 5)))
    ∧ calculateRetention 0 5 = 100
    ∧ calculateRetention 2 5 ≤ calculateRetention 1 5
    ∧ calculateRetention 1 5 ≤ calculateRetention 1 6 :=
  ⟨(calculateRetention_spec 3 0 (-2) 0).1 (by norm_num),
    (calculateRetention_spec 1 0 5 0).2.1 (by norm_num),
    (calculateRetention_spec 0 0 5 0).2.2.1 (by norm_num),
    (calculateRetention_spec 1 2 5 0).2.2.2.1 (by norm_num) (by norm_num),
    (calculateRetention_spec 1 0 5 6).2.2.2.2 (by norm_num) (by norm_num)⟩

/-- C5: the strength estimate always lies in `[1, 60]`; with a positive time
gap, positive retention readings and a nonzero logarithm of their ratio it is
the clamped inversion formula; if any guard fails it is exactly `5`. -/
theorem calculateLearningStrength_spec (t t0 R0 R : ℝ) :
    (1 ≤ calculateLearningStrength t t0 R0 R ∧ calculateLearningStrength t t0 R0 R ≤ 60)
    ∧ (0 < t - t0 → 0 < R0 → 0 < R → Real.log (R0 / R) ≠ 0 →
        calculateLearningStrength t t0 R0 R = max 1 (min 60 ((t - t0) / Real.log (R0 / R))))
    ∧ ((t - t0 ≤ 0 ∨ R0 ≤ 0 ∨ R ≤ 0 ∨ R0 / R ≤ 0) → calculateLearningStrength t t0 R0 R = 5) := by
  refine ⟨?_, fun hdiff hR0 hR hlog => ?_, fun h => ?_⟩
  · unfold calculateLearningStrength
    split_ifs with h1 h2 h3
    · norm_num
    · norm_num
    · norm_num
    · exact ⟨le_max_left 1 _, max_le (by norm_num) (min_le_left 60 _)⟩
  · have h1 : ¬(t - t0 ≤ 0 ∨ R ≤ 0 ∨ R0 ≤ 0) := by
      push_neg
      exact ⟨hdiff, hR, hR0⟩
    have h2 : ¬(R0 / R ≤ 0) := not_le.mpr (div_pos hR0 hR)
    rw [calculateLearningStrength, if_neg h1, if_neg h2, if_neg hlog]
  · by_cases h1 : t - t0 ≤ 0 ∨ R ≤ 0 ∨ R0 ≤ 0
    · rw [calculateLearningStrength, if_pos h1]
    · push_neg at h1
      obtain ⟨hd, hR, hR0⟩ := h1
      have hq : R0 / R ≤ 0 := by
        rcases h with h | h | h | h
        · exact absurd h (not_le.mpr hd)
        · exact absurd h (not_le.mpr hR0)
        · exact absurd h (not_le.mpr hR)
        · exact h
      exact absurd hq (not_le.mpr (div_pos hR0 hR))

/-- Witness for C5 at concrete inputs. -/
theorem calculateLearningStrength_spec_witness :
    (0 < (2 : ℝ) - 0 ∧ 0 < (95 : ℝ) ∧ 0 < (45 : ℝ) ∧ Real.log ((95 : ℝ) / 45) ≠ 0)
    ∧ calculateLearningStrength 2 0 95 45 = max 1 (min 60 ((2 - 0) / Real.log ((95 : ℝ) / 45)))
    ∧ calculateLearningStrength (-1) 0 95 45 = 5
    ∧ 1 ≤ calculateLearningStrength 2 0 95 45 ∧ calculateLearningStrength 2 0 95 45 ≤ 60 := by
  have hlog : Real.log ((95 : ℝ) / 45) ≠ 0 := ne_of_gt (Real.log_pos (by norm_num))
  exact ⟨⟨by norm_num, by norm_num, by norm_num, hlog⟩,
    (calculateLearningStrength_spec 2 0 95 45).2.1 (by norm_num) (by norm_num) (by norm_num) hlog,
    (calculateLearningStrength_spec (-1) 0 95 45).2.2 (Or.inl (by norm_num)),
    (calculateLearningStrength_spec 2 0 95 45).1.1,
    (calculateLearningStrength_spec 2 0 95 45).1.2⟩

/-- C6: the scheduled day count is an integer at least `1`; for a positive
threshold it is `max 1 (round (-S * ln (threshold / 100)))`, and for a
nonpositive threshold it is `1`. -/
theorem calculateNextReviewDays_spec (S th : ℝ) :
    1 ≤ calculateNextReviewDays S th
    ∧ (0 < th → calculateNextReviewDays S th = max 1 (round (-S * Real.log (th / 100))))
    ∧ (th ≤ 0 → calculateNextReviewDays S th = 1) := by
  refine ⟨?_, fun hth => ?_, fun hth => ?_⟩
  · unfold calculateNextReviewDays
    split_ifs
    · exact le_refl 1
    · exact le_max_left 1 _
  · have h : ¬(th / 100 ≤ 0) := by
      push_neg
      positivity
    rw [calculateNextReviewDays, if_neg h]
  · have h : th / 100 ≤ 0 := by linarith
    rw [calculateNextReviewDays, if_pos h]

/-- Witness for C6 at concrete inputs, including a negative strength. -/
theorem calculateNextReviewDays_spec_witness :
    1 ≤ calculateNextReviewDays (-7) 40
    ∧ ((0 : ℝ) < 40
        ∧ calculateNextReviewDays 5 40 = max 1 (round (-(5 : ℝ) * Real.log (40 / 100))))
    ∧ ((0 : ℝ) ≤ 0 ∧ calculateNextReviewDays 3 0 = 1) :=
  ⟨(calculateNextReviewDays_spec (-7) 40).1,
    ⟨by norm_num, (calculateNextReviewDays_spec 5 40).2.1 (by norm_num)⟩,
    ⟨le_refl 0, (calculateNextReviewDays_spec 3 0).2.2 (le_refl 0)⟩⟩

/-- C7: the score-to-retention step mapping, with bands inclusive on their
lower bound, and `scoreToRetention 40 = 20`. -/
theorem scoreToRetention_spec (s : ℝ) :
    (90 ≤ s → scoreToRetention s = 95)
    ∧ (80 ≤ s → s < 90 → scoreToRetention s = 85)
    ∧ (70 ≤ s → s < 80 → scoreToRetention s = 75)
    ∧ (60 ≤ s → s < 70 → scoreToRetention s = 60)
    ∧ (50 ≤ s → s < 60 → scoreToRetention s = 45)
    ∧ (s < 50 → scoreToRetention s = max 20 (s * 0.4))
    ∧ scoreToRetention 40 = 20 := by
  refine ⟨fun h => ?_, fun h h2 => ?_, fun h h2 => ?_, fun h h2 => ?_, fun h h2 => ?_,
    fun h => ?_, ?_⟩
  · rw [scoreToRetention, if_pos h]
  · rw [scoreToRetention, if_neg (by linarith), if_pos h]
  · rw [scoreToRetention, if_neg (by linarith), if_neg (by linarith), if_pos h]
  · rw [scoreToRetention, if_neg (by linarith), if_neg (by linarith), if_neg (by linarith),
      if_pos h]
  · rw [scoreToRetention, if_neg (by linarith), if_neg (by linarith), if_neg (by linarith),
      if_neg (by linarith), if_pos h]
  · rw [scoreToRetention, if_neg (by linarith), if_neg (by linarith), if_neg (by linarith),
      if_neg (by linarith), if_neg (by linarith)]
  · rw [scoreToRetention, if_neg (by norm_num), if_neg (by norm_num), if_neg (by norm_num),
      if_neg (by norm_num), if_neg (by norm_num)]
    exact max_eq_left (by norm_num)

/-- Witness for C7 at concrete inputs. -/
theorem scoreToRetention_spec_witness :
    scoreToRetention 95 = 95
    ∧ ((80 : ℝ) ≤ 85 ∧ (85 : ℝ) < 90 ∧ scoreToRetention 85 = 85)
    ∧ scoreToRetention 40 = 20 :=
  ⟨(scoreToRetention_spec 95).1 (by norm_num),
    ⟨by norm_num, by norm_num, (scoreToRetention_spec 85).2.1 (by norm_num) (by norm_num)⟩,
    (scoreToRetention_spec 40).2.2.2.2.2.2⟩

/-- C8: with empty attempt history the update bypasses the formula, returning
`S = 5` and `retention = scoreToRetention score`; at score `95` the retention is
`95` and the next review lands `max 1 (round (-5 * ln (40/100))) = 5` days out. -/
theorem updateLearningStrength_first_attempt (now score : ℝ) :
    (updateLearningStrength now [] score).S = 5
    ∧ (updateLearningStrength now [] score).retention = scoreToRetention score
    ∧ (updateLearningStrength now [] score).firstAttempt = true
    ∧ (updateLearningStrength now [] 95).retention = 95
    ∧ calculateNextReviewDays 5 40 = 5 := by
  refine ⟨rfl, rfl, rfl, ?_, ?_⟩
  · show scoreToRetention 95 = 95
    rw [scoreToRetention, if_pos (by norm_num : (90 : ℝ) ≤ 95)]
  · rw [calculateNextReviewDays, if_neg (by norm_num : ¬((40 : ℝ) / 100 ≤ 0))]
    have hL : -(5 : ℝ) * Real.log (40 / 100) = 5 * Real.log (5 / 2) := by
      rw [log_forty_over_hundred]
      ring
    have hround : round ((5 : ℝ) * Real.log (5 / 2)) = 5 := by
      rw [round_eq]
      apply Int.floor_eq_iff.mpr
      constructor
      · push_cast
        nlinarith [log_five_div_two_lower]
      · push_cast
        nlinarith [log_five_div_two_upper]
    rw [hL, hround]
    decide

/-- C2: every returned recommendation has `daysUntilDue ≥ 0`; a due (overdue)
result has `daysUntilDue = 0`; on attempted quizzes the field is the signed day
difference clamped through `max 0`. -/
theorem getQuizRecommendations_daysUntilDue_clamped (now : ℝ) (qs : List Quiz) (r : RecResult)
    (hr : r ∈ getQuizRecommendations now qs) :
    0 ≤ r.daysUntilDue
    ∧ (r.isDue = true → r.daysUntilDue = 0)
    ∧ (∀ la, r.quiz.lastAttempt = some la →
        r.daysUntilDue = max 0 ((la.nextReviewDate - now) / msPerDay)) := by
  obtain ⟨q, hq, rfl⟩ := mem_getQuizRecommendations hr
  refine ⟨recommendQuiz_daysUntilDue_nonneg now q, recommendQuiz_isDue_daysUntilDue now q, ?_⟩
  intro la hla
  rw [recommendQuiz_quiz] at hla
  exact recommendQuiz_daysUntilDue_of_some now q la hla

/-- Witness for C2 on a concretely overdue quiz. -/
theorem getQuizRecommendations_daysUntilDue_clamped_witness :
    recommendQuiz exNow exQuizA ∈ getQuizRecommendations exNow [exQuizA]
    ∧ 0 ≤ (recommendQuiz exNow exQuizA).daysUntilDue
    ∧ (recommendQuiz exNow exQuizA).isDue = true
    ∧ (recommendQuiz exNow exQuizA).daysUntilDue = 0 := by
  have hmem : recommendQuiz exNow exQuizA ∈ getQuizRecommendations exNow [exQuizA] := by
    rw [getQuizRecommendations, List.mem_insertionSort]
    simp
  have hdue : (recommendQuiz exNow exQuizA).isDue = true := by
    have hd : (recommendQuiz exNow exQuizA).isDue =
        (if (exLastA.nextReviewDate - exNow) / msPerDay ≤ 0 then true else false) := rfl
    rw [hd, if_pos (by norm_num [exLastA, exNow, msPerDay])]
  have h := getQuizRecommendations_daysUntilDue_clamped exNow [exQuizA] _ hmem
  exact ⟨hmem, h.1, hdue, h.2.1 hdue⟩

/-- C3: in the recommendation output, a never-attempted quiz always precedes
every attempted quiz that is not due. -/
theorem neverAttempted_ranks_first (now : ℝ) (qs : List Quiz) (i j : ℕ)
    (hi : i < (getQuizRecommendations now qs).length)
    (hj : j < (getQuizRecommendations now qs).length)
    (hx : ((getQuizRecommendations now qs).get ⟨i, hi⟩).quiz.lastAttempt = none)
    (_hy : ((getQuizRecommendations now qs).get ⟨j, hj⟩).quiz.lastAttempt ≠ none)
    (hdue : ((getQuizRecommendations now qs).get ⟨j, hj⟩).isDue = false) :
    i < j := by
  have hxmem : (getQuizRecommendations now qs).get ⟨i, hi⟩ ∈ getQuizRecommendations now qs :=
    List.get_mem _ _ _
  obtain ⟨qx, hqxmem, hqx⟩ := mem_getQuizRecommendations hxmem
  have hxquiz : ((getQuizRecommendations now qs).get ⟨i, hi⟩).quiz = qx := by
    rw [← hqx, recommendQuiz_quiz]
  have hqxn : qx.lastAttempt = none := by
    rw [← hxquiz]
    exact hx
  have hxeq : (getQuizRecommendations now qs).get ⟨i, hi⟩ =
      { quiz := qx, priority := .high, reason := "New quiz - never attempted",
        daysUntilDue := 0, isDue := true, retention := none } := by
    rw [← hqx, recommendQuiz_of_none now qx hqxn]
  have hymem : (getQuizRecommendations now qs).get ⟨j, hj⟩ ∈ getQuizRecommendations now qs :=
    List.get_mem _ _ _
  obtain ⟨qy, hqymem, hqy⟩ := mem_getQuizRecommendations hymem
  have hyd : 0 < ((getQuizRecommendations now qs).get ⟨j, hj⟩).daysUntilDue := by
    rw [← hqy]
    refine recommendQuiz_not_isDue_daysUntilDue now qy ?_
    rw [hqy]
    exact hdue
  have hnR : ¬ recLE ((getQuizRecommendations now qs).get ⟨j, hj⟩)
      ((getQuizRecommendations now qs).get ⟨i, hi⟩) := by
    intro hR
    rcases hR with h | ⟨h, hle⟩
    · rw [hxeq] at h
      exact Nat.not_lt_zero _ h
    · rw [hxeq] at hle
      exact absurd hle (not_le.mpr hyd)
  by_contra hij
  push_neg at hij
  rcases lt_or_eq_of_le hij with hji | hji
  · have hsorted : List.Sorted recLE (getQuizRecommendations now qs) :=
      List.sorted_insertionSort recLE _
    exact hnR (hsorted.rel_get_of_lt hji)
  · have hfin : (⟨j, hj⟩ : Fin (getQuizRecommendations now qs).length) = ⟨i, hi⟩ :=
      Fin.ext hji
    rw [hfin, hxeq] at hdue
    exact Bool.noConfusion hdue

/-- Witness for C3: with an attempted, not-due quiz listed first, the
never-attempted quiz still comes out in front. -/
theorem neverAttempted_ranks_first_witness :
    getQuizRecommendations exNow [exQuizC, exQuizNew]
      = [recommendQuiz exNow exQuizNew, recommendQuiz exNow exQuizC]
    ∧ (0 : ℕ) < 1 := by
  have hC : (recommendQuiz exNow exQuizC).priority = .low
      ∧ (recommendQuiz exNow exQuizC).isDue = false := by
    norm_num [recommendQuiz, exQuizC, exLastC, exNow, msPerDay]
  have hCNew : ¬ recLE (recommendQuiz exNow exQuizC) (recommendQuiz exNow exQuizNew) := by
    intro hR
    have hNew : (recommendQuiz exNow exQuizNew).priority = .high := rfl
    rcases hR with h | ⟨h, _⟩
    · rw [hC.1, hNew] at h
      exact Nat.not_lt_zero _ h
    · rw [hC.1, hNew] at h
      exact Nat.noConfusion h
  have hsort : getQuizRecommendations exNow [exQuizC, exQuizNew]
      = [recommendQuiz exNow exQuizNew, recommendQuiz exNow exQuizC] := by
    rw [getQuizRecommendations]
    simp only [List.map_cons, List.map_nil, List.insertionSort, List.orderedInsert]
    rw [if_neg hCNew]
  refine ⟨hsort, ?_⟩
  have h0 : (0 : ℕ) < (getQuizRecommendations exNow [exQuizC, exQuizNew]).length := by
    rw [length_getQuizRecommendations]
    norm_num
  have h1 : (1 : ℕ) < (getQuizRecommendations exNow [exQuizC, exQuizNew]).length := by
    rw [length_getQuizRecommendations]
    norm_num
  have hget0 : (getQuizRecommendations exNow [exQuizC, exQuizNew]).get ⟨0, h0⟩
      = recommendQuiz exNow exQuizNew := by
    rw [List.get_of_eq hsort]
    rfl
  have hget1 : (getQuizRecommendations exNow [exQuizC, exQuizNew]).get ⟨1, h1⟩
      = recommendQuiz exNow exQuizC := by
    rw [List.get_of_eq hsort]
    rfl
  refine neverAttempted_ranks_first exNow [exQuizC, exQuizNew] 0 1 h0 h1 ?_ ?_ ?_
  · rw [hget0]
    rfl
  · rw [hget1, recommendQuiz_quiz]
    simp [exQuizC]
  · rw [hget1]
    exact hC.2

/-- C1 counterexample: `exQuizB` is strictly more overdue than `exQuizA` (raw
signed day differences `-3 < -1 < 0`), yet with input `[exQuizA, exQuizB]` the
output keeps quiz `0` first and returns `daysUntilDue = 0` (not negative) for
both: the sort runs on the clamped field, so overdue quizzes tie instead of
ordering by raw signed `daysUntilDue`. -/
theorem overdue_sort_counterexample :
    ((exLastB.nextReviewDate - exNow) / msPerDay < (exLastA.nextReviewDate - exNow) / msPerDay
      ∧ (exLastA.nextReviewDate - exNow) / msPerDay < 0)
    ∧ (getQuizRecommendations exNow [exQuizA, exQuizB]).map
        (fun r => (r.quiz.id, r.daysUntilDue, r.isDue)) = [(0, 0, true), (1, 0, true)]
    ∧ ¬ (getQuizRecommendations exNow [exQuizA, exQuizB]).map
        (fun r => r.quiz.id) = [1, 0] := by
  have hA : (recommendQuiz exNow exQuizA).daysUntilDue = 0
      ∧ (recommendQuiz exNow exQuizA).isDue = true
      ∧ (recommendQuiz exNow exQuizA).priority = .high := by
    norm_num [recommendQuiz, exQuizA, exLastA, exNow, msPerDay]
  have hB : (recommendQuiz exNow exQuizB).daysUntilDue = 0
      ∧ (recommendQuiz exNow exQuizB).isDue = true
      ∧ (recommendQuiz exNow exQuizB).priority = .high := by
    norm_num [recommendQuiz, exQuizB, exLastB, exNow, msPerDay]
  have hAB : recLE (recommendQuiz exNow exQuizA) (recommendQuiz exNow exQuizB) := by
    right
    rw [hA.2.2, hB.2.2, hA.1, hB.1]
    exact ⟨rfl, le_refl 0⟩
  have hsort : getQuizRecommendations exNow [exQuizA, exQuizB]
      = [recommendQuiz exNow exQuizA, recommendQuiz exNow exQuizB] := by
    rw [getQuizRecommendations]
    simp only [List.map_cons, List.map_nil, List.insertionSort, List.orderedInsert]
    rw [if_pos hAB]
  refine ⟨by norm_num [exLastA, exLastB, exNow, msPerDay], ?_, ?_⟩
  · rw [hsort]
    simp only [List.map_cons, List.map_nil, recommendQuiz_quiz, hA.1, hA.2.1, hB.1, hB.2.1]
    simp [exQuizA, exQuizB]
  · rw [hsort]
    simp only [List.map_cons, List.map_nil, recommendQuiz_quiz]
    simp [exQuizA, exQuizB]

/-- C1 amended: the output is sorted by the comparator order (priority rank,
then the clamped `daysUntilDue`, ascending), is a permutation of the per-quiz
records, every `daysUntilDue` is nonnegative (overdue entries tie at `0`), and
the sort is stable: entries with any fixed sort key keep their input order. -/
theorem getQuizRecommendations_sorted (now : ℝ) (qs : List Quiz) :
    List.Sorted recLE (getQuizRecommendations now qs)
    ∧ List.Perm (getQuizRecommendations now qs) (qs.map (recommendQuiz now))
    ∧ (∀ r ∈ getQuizRecommendations now qs, 0 ≤ r.daysUntilDue
        ∧ (r.isDue = true → r.daysUntilDue = 0))
    ∧ (∀ k : ℕ × ℝ,
        (getQuizRecommendations now qs).filter (fun r => if sortKey r = k then true else false)
          = (qs.map (recommendQuiz now)).filter (fun r => if sortKey r = k then true else false)) := by
  refine ⟨List.sorted_insertionSort recLE _, List.perm_insertionSort recLE _, ?_, ?_⟩
  · intro r hr
    obtain ⟨q, hq, rfl⟩ := mem_getQuizRecommendations hr
    exact ⟨recommendQuiz_daysUntilDue_nonneg now q, recommendQuiz_isDue_daysUntilDue now q⟩
  · intro k
    apply filter_insertionSort
    intro a b ha hb
    have ha' : sortKey a = k := by
      by_contra hne
      rw [if_neg hne] at ha
      exact Bool.noConfusion ha
    have hb' : sortKey b = k := by
      by_contra hne
      rw [if_neg hne] at hb
      exact Bool.noConfusion hb
    have hk : sortKey a = sortKey b := ha'.trans hb'.symm
    exact Or.inr ⟨congrArg Prod.fst hk, le_of_eq (congrArg Prod.snd hk)⟩

/-- Witness for the amended C1 on a concrete input. -/
theorem getQuizRecommendations_sorted_witness :
    List.Sorted recLE (getQuizRecommendations exNow [exQuizB, exQuizC])
    ∧ recommendQuiz exNow exQuizB ∈ getQuizRecommendations exNow [exQuizB, exQuizC]
    ∧ 0 ≤ (recommendQuiz exNow exQuizB).daysUntilDue := by
  have hmem : recommendQuiz exNow exQuizB ∈ getQuizRecommendations exNow [exQuizB, exQuizC] := by
    rw [getQuizRecommendations, List.mem_insertionSort]
    simp
  exact ⟨(getQuizRecommendations_sorted exNow [exQuizB, exQuizC]).1, hmem,
    ((getQuizRecommendations_sorted exNow [exQuizB, exQuizC]).2.2.1 _ hmem).1⟩

/-- C9: scheduling a review at the 40 percent threshold and evaluating the
decay model there lands within the tolerance induced by rounding the day count:
whenever the ideal day count `S * ln (5/2)` is at least `1/2` (so the floor at
one day does not intervene), the retention after the scheduled integer day
count differs from `40` by at most `40 * (e^(1/(2S)) - 1)`, the deviation
produced by moving the ideal time by at most half a day. -/
theorem retention_roundTrip (S : ℝ) (h : 1 / 2 ≤ S * Real.log (5 / 2)) :
    |calculateRetention ((calculateNextReviewDays S 40 : ℤ) : ℝ) S - 40|
      ≤ 40 * (Real.exp (1 / (2 * S)) - 1) := by
  have hL : 0 < Real.log (5 / 2) := Real.log_pos (by norm_num)
  have hS : 0 < S := by nlinarith
  have hd40 : calculateNextReviewDays S 40 = round (S * Real.log (5 / 2)) := by
    rw [calculateNextReviewDays, if_neg (by norm_num : ¬((40 : ℝ) / 100 ≤ 0)),
      show -S * Real.log ((40 : ℝ) / 100) = S * Real.log (5 / 2) by
        rw [log_forty_over_hundred]; ring]
    apply max_eq_right
    rw [round_eq]
    exact Int.le_floor.mpr (by push_cast; nlinarith)
  have habs : |(round (S * Real.log (5 / 2)) : ℝ) - S * Real.log (5 / 2)| ≤ 1 / 2 := by
    rw [abs_sub_comm]
    exact abs_sub_round (S * Real.log (5 / 2))
  have hθabs : |((round (S * Real.log (5 / 2)) : ℝ) - S * Real.log (5 / 2)) / S| ≤ 1 / (2 * S) := by
    rw [abs_div, abs_of_pos hS, div_le_div_iff₀ hS (by positivity)]
    nlinarith
  obtain ⟨hθlo, hθup⟩ := abs_le.mp hθabs
  have hup : Real.exp (-(((round (S * Real.log (5 / 2)) : ℝ) - S * Real.log (5 / 2)) / S))
      ≤ Real.exp (1 / (2 * S)) := Real.exp_le_exp.mpr (by linarith)
  have hlo : Real.exp (-(1 / (2 * S)))
      ≤ Real.exp (-(((round (S * Real.log (5 / 2)) : ℝ) - S * Real.log (5 / 2)) / S)) :=
    Real.exp_le_exp.mpr (by linarith)
  have hE : Real.exp (-(round (S * Real.log (5 / 2)) : ℝ) / S) * 100
      = 40 * Real.exp (-(((round (S * Real.log (5 / 2)) : ℝ) - S * Real.log (5 / 2)) / S)) := by
    have hexpL : Real.exp (-Real.log (5 / 2)) = 2 / 5 := by
      rw [Real.exp_neg, Real.exp_log (by norm_num : (0 : ℝ) < 5 / 2)]
      norm_num
    rw [show -(round (S * Real.log (5 / 2)) : ℝ) / S
        = -Real.log (5 / 2) + -(((round (S * Real.log (5 / 2)) : ℝ) - S * Real.log (5 / 2)) / S) by
      field_simp
      ring]
    rw [Real.exp_add, hexpL]
    ring
  have hδL : 1 / (2 * S) ≤ Real.log (5 / 2) := by
    rw [div_le_iff₀ (by positivity : (0 : ℝ) < 2 * S)]
    nlinarith
  have hexpδ : Real.exp (1 / (2 * S)) ≤ 5 / 2 := by
    calc Real.exp (1 / (2 * S)) ≤ Real.exp (Real.log (5 / 2)) := Real.exp_le_exp.mpr hδL
    _ = 5 / 2 := Real.exp_log (by norm_num)
  have hE100 : Real.exp (-(round (S * Real.log (5 / 2)) : ℝ) / S) * 100 ≤ 100 := by
    rw [hE]
    nlinarith
  have hEpos : 0 < Real.exp (-(round (S * Real.log (5 / 2)) : ℝ) / S) * 100 := by positivity
  have hret : calculateRetention ((calculateNextReviewDays S 40 : ℤ) : ℝ) S
      = Real.exp (-(round (S * Real.log (5 / 2)) : ℝ) / S) * 100 := by
    rw [hd40, calculateRetention, if_neg (not_le.mpr hS), min_eq_right hE100,
      max_eq_right hEpos.le]
  rw [hret, hE, abs_le]
  have h2 : 2 ≤ Real.exp (1 / (2 * S)) + Real.exp (-(1 / (2 * S))) := by
    have a1 := Real.add_one_le_exp (1 / (2 * S))
    have a2 := Real.add_one_le_exp (-(1 / (2 * S)))
    linarith
  constructor
  · nlinarith
  · nlinarith

/-- Witness for C9 at strength `S = 5`. -/
theorem retention_roundTrip_witness :
    (1 / 2 : ℝ) ≤ 5 * Real.log (5 / 2)
    ∧ |calculateRetention ((calculateNextReviewDays 5 40 : ℤ) : ℝ) 5 - 40|
        ≤ 40 * (Real.exp (1 / (2 * 5)) - 1) := by
  have h : (1 / 2 : ℝ) ≤ 5 * Real.log (5 / 2) := by nlinarith [log_five_div_two_lower]
  exact ⟨h, retention_roundTrip 5 h⟩

/-- C10: with no attempts the stats are the exact default record; a single
attempt yields a neutral trend; with at least two attempts the trend compares
the mean of the last three scores against the mean of the remaining scores,
with a margin of five points. -/
theorem calculateLessonStats_spec (now : ℝ) :
    calculateLessonStats now [] =
      { averageScore := 0, attemptCount := 0, averageLearningStrength := 5,
        currentRetention := 0, trend := "neutral", nextReviewDate := none }
    ∧ (∀ a : Attempt, (calculateLessonStats now [a]).trend = "neutral")
    ∧ (∀ attempts : List Attempt, 2 ≤ attempts.length →
        (calculateLessonStats now attempts).trend =
          (let scores := attempts.map (fun x => x.score)
           let n := scores.length
           let recentAvg := (scores.drop (n - 3)).sum / ((min 3 n : ℕ) : ℝ)
           let olderAvg := (scores.take (n - 3)).sum / ((max 1 (n - 3) : ℕ) : ℝ)
           if olderAvg + 5 < recentAvg then "improving"
           else if recentAvg < olderAvg - 5 then "declining"
           else "neutral")) := by
  refine ⟨rfl, fun a => ?_, fun attempts h2 => ?_⟩
  · simp [calculateLessonStats]
  · rcases attempts with _ | ⟨a, rest⟩
    · simp at h2
    · have hn : 2 ≤ ((a :: rest).map (fun x => x.score)).length := by
        rw [List.length_map]
        exact h2
      show (if 2 ≤ ((a :: rest).map (fun x => x.score)).length then
          if (((a :: rest).map (fun x => x.score)).take
                (((a :: rest).map (fun x => x.score)).length - 3)).sum /
              ((max 1 (((a :: rest).map (fun x => x.score)).length - 3) : ℕ) : ℝ) + 5 <
              (((a :: rest).map (fun x => x.score)).drop
                (((a :: rest).map (fun x => x.score)).length - 3)).sum /
              ((min 3 (((a :: rest).map (fun x => x.score)).length) : ℕ) : ℝ) then "improving"
          else if (((a :: rest).map (fun x => x.score)).drop
                (((a :: rest).map (fun x => x.score)).length - 3)).sum /
              ((min 3 (((a :: rest).map (fun x => x.score)).length) : ℕ) : ℝ) <
              (((a :: rest).map (fun x => x.score)).take
                (((a :: rest).map (fun x => x.score)).length - 3)).sum /
              ((max 1 (((a :: rest).map (fun x => x.score)).length - 3) : ℕ) : ℝ) - 5 then
            "declining"
          else "neutral"
        else "neutral") = _
      rw [if_pos hn]

/-- Witness for C10 at concrete attempt lists. -/
theorem calculateLessonStats_spec_witness :
    (calculateLessonStats 0 []).trend = "neutral"
    ∧ (calculateLessonStats 0 [⟨0, 50, none⟩]).trend = "neutral"
    ∧ 2 ≤ ([⟨0, 10, none⟩, ⟨1, 90, none⟩] : List Attempt).length
    ∧ (calculateLessonStats 0 [⟨0, 10, none⟩, ⟨1, 90, none⟩]).trend = "improving" := by
  refine ⟨?_, (calculateLessonStats_spec 0).2.1 ⟨0, 50, none⟩, by norm_num, ?_⟩
  · rw [(calculateLessonStats_spec 0).1]
  · rw [(calculateLessonStats_spec 0).2.2 [⟨0, 10, none⟩, ⟨1, 90, none⟩] (by norm_num)]
    norm_num

end RetentionAlgorithm
